import Mathlib

/-!
Verification development for the embedded scripture store of the
devotional blogging platform (mobile variant in `services/BibleDatabase`
plus the reader screen, reading-state overlay and per-post progress
store).  Each definition is a shallow embedding of the corresponding
TypeScript function; strings are modelled as lists of characters and
JavaScript numbers appearing as scroll offsets are modelled as finite
nonnegative decimals (`DecNum`), with `none : Option DecNum` standing
for the `NaN` result of a failed `parseFloat`.
-/

namespace BlogsPath

/-! ## Decimal digits and the JS number/string codec -/

/-- The character for a single decimal digit, as emitted by `Number.toString`. -/
def digitChar (d : Nat) : Char :=
  match d with
  | 0 => '0'
  | 1 => '1'
  | 2 => '2'
  | 3 => '3'
  | 4 => '4'
  | 5 => '5'
  | 6 => '6'
  | 7 => '7'
  | 8 => '8'
  | 9 => '9'
  | _ => '?'

/-- Numeric value of a digit character (code point minus 48). -/
def digitVal (c : Char) : Nat := c.toNat - 48

/-- Whether a character is a decimal digit. -/
def isDigitCh (c : Char) : Bool := decide (48 ≤ c.toNat ∧ c.toNat ≤ 57)

/-- Little-endian decimal digits of `n`, with explicit fuel so the
definition is structural (fuel `n` is always enough since `n / 10 < n`). -/
def digitsRevFuel : Nat → Nat → List Nat
  | 0, _ => []
  | fuel + 1, n => if n = 0 then [] else n % 10 :: digitsRevFuel fuel (n / 10)

/-- Big-endian decimal digits of `n`; `0` prints as `[0]` like JS `(0).toString()`. -/
def natDigits (n : Nat) : List Nat :=
  if n = 0 then [0] else (digitsRevFuel n n).reverse

/-- Decimal character string of a natural number. -/
def natChars (n : Nat) : List Char := (natDigits n).map digitChar

/-- A finite nonnegative decimal number: integer part and fractional digits.
This models the JS doubles that flow through the reading-progress store,
in the exact shape `Number.toString` renders them. -/
structure DecNum where
  ip : Nat
  frac : List Nat
deriving DecidableEq, Repr

/-- Canonical-form predicate matching what `Number.toString` emits:
fractional digits are decimal digits and carry no trailing zero. -/
def DecWF (y : DecNum) : Prop :=
  (∀ d ∈ y.frac, d < 10) ∧ y.frac.getLast? ≠ some 0

/-- `Number.toString` for a finite nonnegative decimal. -/
def decToString (y : DecNum) : List Char :=
  natChars y.ip ++ (match y.frac with
    | [] => []
    | fs => '.' :: fs.map digitChar)

/-- Drop trailing zero digits of a fractional part (two decimal strings
that differ only in trailing zeros denote the same JS number). -/
def stripTZ (l : List Nat) : List Nat :=
  (l.reverse.dropWhile (fun d => d = 0)).reverse

/-- JS `parseFloat` on the strings this store produces: parse a leading
digit run, then an optional point and fractional digit run, ignoring any
trailing garbage; a string with no leading digit yields `none` (`NaN`). -/
def parseFloat (cs : List Char) : Option DecNum :=
  if (cs.takeWhile isDigitCh).isEmpty then none
  else
    match cs.drop (cs.takeWhile isDigitCh).length with
    | '.' :: rest2 =>
      some ⟨(cs.takeWhile isDigitCh).foldl (fun a c => a * 10 + digitVal c) 0,
        stripTZ ((rest2.takeWhile isDigitCh).map digitVal)⟩
    | _ => some ⟨(cs.takeWhile isDigitCh).foldl (fun a c => a * 10 + digitVal c) 0, []⟩

/-! ## Durable key-value substrate (AsyncStorage)

`getItem` may reject (modelled by `Except.error`) or resolve to `null`
(`none`) or to a stored string. -/

/-- An AsyncStorage snapshot: key to throwing-or-null-or-string. -/
abbrev Storage := List Char → Except Unit (Option (List Char))

/-- Storage key prefix plus post id, as in `reading_progress_${postId}`. -/
def progressKeyOf (postId : Nat) : List Char :=
  ("reading_progress_").toList ++ natChars postId

/-- `saveReadingProgress`: stores `y.toString()` under the post key.
Models the successful write (a rejected `setItem` is caught and drops
the write, which the round-trip claims do not exercise). -/
def saveReadingProgress (store : Storage) (postId : Nat) (y : DecNum) : Storage :=
  fun k => if k = progressKeyOf postId then Except.ok (some (decToString y)) else store k

/-- `getReadingProgress`: returns `0` when the key is missing, the store
throws, or the stored string is empty; otherwise `parseFloat` of the
stored string (`none` models the `NaN` result). -/
def getReadingProgress (store : Storage) (postId : Nat) : Except Unit (Option DecNum) :=
  match store (progressKeyOf postId) with
  | Except.error _ => Except.ok (some ⟨0, []⟩)
  | Except.ok none => Except.ok (some ⟨0, []⟩)
  | Except.ok (some val) =>
    if val = [] then Except.ok (some ⟨0, []⟩) else Except.ok (parseFloat val)

/-- Key of the read-post-ids list. -/
def READ_POSTS_KEY : List Char := ("read_posts_ids").toList

/-- `getReadPostIds`: JSON parse of the stored list, with every failure
(storage rejection or parse error, both caught) degrading to `[]`.
The JSON decoder is a parameter since its input never matters to the
claims beyond success or failure. -/
def getReadPostIds (store : Storage)
    (parseIds : List Char → Except Unit (List Nat)) : Except Unit (List Nat) :=
  match store READ_POSTS_KEY with
  | Except.error _ => Except.ok []
  | Except.ok none => Except.ok []
  | Except.ok (some s) =>
    if s = [] then Except.ok []
    else
      match parseIds s with
      | Except.error _ => Except.ok []
      | Except.ok ids => Except.ok ids

/-! ## Highlights overlay -/

/-- A verse row as returned by the verses query. -/
structure VerseRow where
  ID : Nat
  VolumeSN : Nat
  ChapterSN : Nat
  VerseSN : Nat
  Lection : List Char
deriving DecidableEq, Repr

/-- The translation-independent highlight key `VolumeSN-ChapterSN-VerseSN`
(the dash-joined string encoding is injective on the triple). -/
def getVerseKey (v : VerseRow) : Nat × Nat × Nat := (v.VolumeSN, v.ChapterSN, v.VerseSN)

/-- The in-memory highlight map: a JS object from verse keys to flags. -/
abbrev HlMap := List ((Nat × Nat × Nat) × Bool)

/-- Object property read: the value stored at `k`, if any. -/
def hlLookup (m : HlMap) (k : Nat × Nat × Nat) : Option Bool :=
  (m.find? (fun p => p.1 = k)).map (fun p => p.2)

/-- JS `delete m[k]`. -/
def hlErase (m : HlMap) (k : Nat × Nat × Nat) : HlMap :=
  m.filter (fun p => p.1 ≠ k)

/-- JS `m[k] = true`: overwrite in place if the key exists, otherwise
append the new property. -/
def hlInsertTrue (m : HlMap) (k : Nat × Nat × Nat) : HlMap :=
  if (m.find? (fun p => p.1 = k)).isSome then
    m.map (fun p => if p.1 = k then (k, true) else p)
  else
    m ++ [(k, true)]

/-- The toggle performed by `handleHighlightSelected` for a single
selected verse key: absent or false sets the flag, present-true removes
the property. -/
def toggleHighlight (m : HlMap) (k : Nat × Nat × Nat) : HlMap :=
  if (hlLookup m k).getD false then hlErase m k else hlInsertTrue m k

/-- Key of the persisted highlight map. -/
def HIGHLIGHT_STORAGE_KEY : List Char := ("bible_highlights").toList

/-- `loadStoredData` for highlights: a missing entry, a throwing store, or
a `JSON.parse` failure (caught) all leave the state empty. -/
def loadStoredData (store : Storage)
    (parseHl : List Char → Except Unit HlMap) : Except Unit HlMap :=
  match store HIGHLIGHT_STORAGE_KEY with
  | Except.error _ => Except.ok []
  | Except.ok none => Except.ok []
  | Except.ok (some raw) =>
    if raw = [] then Except.ok []
    else
      match parseHl raw with
      | Except.error _ => Except.ok []
      | Except.ok m => Except.ok m

/-! ## Reading history -/

/-- One reading-history record. -/
structure HistoryEntry where
  bookSN : Nat
  chapter : Nat
  bookName : List Char
  timestamp : Nat
deriving DecidableEq, Repr

/-- The `saveHistory` update: drop any entry at the same
`(bookSN, chapter)`, prepend the new entry, cap the list at 20. -/
def saveHistory (newItem : HistoryEntry) (history : List HistoryEntry) : List HistoryEntry :=
  if (newItem :: history.filter
      (fun h => ¬(h.bookSN = newItem.bookSN ∧ h.chapter = newItem.chapter))).length > 20 then
    (newItem :: history.filter
      (fun h => ¬(h.bookSN = newItem.bookSN ∧ h.chapter = newItem.chapter))).take 20
  else
    newItem :: history.filter
      (fun h => ¬(h.bookSN = newItem.bookSN ∧ h.chapter = newItem.chapter))

/-- Position-key uniqueness invariant of the history list. -/
def historyKeysNodup (h : List HistoryEntry) : Prop :=
  h.Pairwise (fun a b => ¬(a.bookSN = b.bookSN ∧ a.chapter = b.chapter))

/-- The `i`-th distinct visit used in the 21-visit scenario. -/
def visitN (i : Nat) : HistoryEntry := ⟨i, 1, [], i⟩

/-! ## Query engine: chapter verses -/

/-- The verses query bound to `(bookId, chapter)` against the active
translation's verse table: the rows with matching book serial and
chapter, ordered by `VerseSN` ascending (`ORDER BY VerseSN ASC`). -/
def getVerses (table : List VerseRow) (bookId chapter : Nat) : List VerseRow :=
  List.insertionSort (fun a b => a.VerseSN ≤ b.VerseSN)
    (table.filter (fun v => v.VolumeSN = bookId ∧ v.ChapterSN = chapter))

/-! ## Books and reader positioning across a translation switch -/

/-- A book row as returned by the books query. -/
structure BibleBook where
  SN : Nat
  FullName : List Char
  ShortName : List Char
  NewOrOld : Nat
  ChapterNumber : Nat
deriving DecidableEq, Repr

/-- The selection step of `loadBooks`: given the new translation's book
list and the captured preferred position, pick the next current book and
chapter exactly as the code does (JS truthiness makes a `0` preference
behave like an absent one). -/
def loadBooksSelect (data : List BibleBook) (prefSN prefCh : Option Nat) :
    Option (BibleBook × Nat) :=
  match data with
  | [] => none
  | b0 :: _ =>
    let nextBook :=
      match prefSN with
      | some sn =>
        if sn ≠ 0 then
          match data.find? (fun b => b.SN = sn) with
          | some m => m
          | none => b0
        else b0
      | none => b0
    let nextChapter :=
      match prefCh with
      | some ch => if ch ≠ 0 then min ch nextBook.ChapterNumber else 1
      | none => 1
    some (nextBook, nextChapter)

/-! ## Version switch coordinator -/

/-- The statically enumerated translation keys of `VERSION_CONFIG`. -/
inductive VKey where
  | cuv
  | cnv
  | asv
deriving DecidableEq, Repr

/-- Database filename of each translation. -/
def dbName : VKey → List Char
  | VKey.cuv => ("bible_cuv.db").toList
  | VKey.cnv => ("bible_cnv.db").toList
  | VKey.asv => ("ASV.db").toList

/-- The coordinator's module state: the active key, the `db` variable,
and the multiset of handles currently open at the SQLite layer, each
tagged with the translation it serves (`closeAsync` failures are
swallowed and the abandoned handle is treated as released). -/
structure Coord where
  activeVersion : VKey
  db : Option VKey
  handles : List VKey
deriving DecidableEq, Repr

/-- The module initial state: `activeVersion = cuv`, `db = null`. -/
def coordInit : Coord := ⟨VKey.cuv, none, []⟩

/-- `getActiveBibleVersion`. -/
def getActiveBibleVersion (s : Coord) : VKey := s.activeVersion

/-- `initDatabase`: reuse the open handle, otherwise provision and open
the active translation.  `ok` says whether provisioning plus opening
succeeds for a key; the extra `Nat` counts open events. -/
def initDatabase (ok : VKey → Bool) (s : Coord) : Coord × Bool × Nat :=
  match s.db with
  | some _ => (s, true, 0)
  | none =>
    if ok s.activeVersion then
      (⟨s.activeVersion, some s.activeVersion, s.activeVersion :: s.handles⟩, true, 1)
    else (s, false, 0)

/-- `setActiveBibleVersion`: no-op on the same key; otherwise close the
current handle, reassign `activeVersion`, then `initDatabase`.  Returns
`(state, success, closeEvents, openEvents)`. -/
def setActiveBibleVersion (ok : VKey → Bool) (s : Coord) (v : VKey) :
    Coord × Bool × Nat × Nat :=
  if v = s.activeVersion then (s, true, 0, 0)
  else
    let c :=
      match s.db with
      | some w => (Coord.mk s.activeVersion none (s.handles.erase w), 1)
      | none => (s, 0)
    let s2 : Coord := ⟨v, c.1.db, c.1.handles⟩
    let r := initDatabase ok s2
    (r.1, r.2.1, c.2, r.2.2)

/-- States the coordinator can reach from module load through any
sequence of `initDatabase` calls (including the ones inside `getBooks`
and `getVerses`) and `setActiveBibleVersion` calls, with provisioning
success free to vary between steps. -/
inductive Reachable : Coord → Prop where
  | init : Reachable coordInit
  | initDB (ok : VKey → Bool) {s : Coord} :
      Reachable s → Reachable (initDatabase ok s).1
  | switch (ok : VKey → Bool) (v : VKey) {s : Coord} :
      Reachable s → Reachable (setActiveBibleVersion ok s v).1

/-- The reader screen state that `handleTranslationChange` touches. -/
structure UIState where
  translation : VKey
  coord : Coord
deriving DecidableEq, Repr

/-- `handleTranslationChange`: no-op on the same key; otherwise switch
the coordinator and adopt the new key, rolling the displayed translation
back to the previous one in the catch branch when the switch fails. -/
def handleTranslationChange (ok : VKey → Bool) (u : UIState) (v : VKey) : UIState :=
  if v = u.translation then u
  else
    let r := setActiveBibleVersion ok u.coord v
    if r.2.1 then ⟨v, r.1⟩ else ⟨u.translation, r.1⟩

/-! ## Store provisioner -/

/-- Local writable storage: the set of files and directories present,
plus a counter of byte-copies performed. -/
structure FSState where
  files : List (List Char)
  dirs : List (List Char)
  copyCount : Nat
deriving DecidableEq, Repr

/-- The private SQLite directory under the document directory. -/
def dbDirOf (docDir : List Char) : List Char := docDir ++ ("SQLite").toList

/-- The provisioned path of a translation's database file. -/
def dbPathOf (docDir : List Char) (v : VKey) : List Char :=
  dbDirOf docDir ++ '/' :: dbName v

/-- The directory-creation step of `ensureDatabaseReady`: make the
SQLite directory when it does not exist yet. -/
def provisionDirs (docDir : List Char) (fs : FSState) : FSState :=
  if dbDirOf docDir ∈ fs.dirs then fs
  else FSState.mk fs.files (dbDirOf docDir :: fs.dirs) fs.copyCount

/-- `ensureDatabaseReady`: return the target path at once if the file
exists; otherwise create the directory if needed, resolve the packaged
asset and copy it to the target.  `assetOk` says whether asset download,
local-URI resolution and the copy succeed for a key; a failure throws. -/
def ensureDatabaseReady (docDir : List Char) (assetOk : VKey → Bool)
    (fs : FSState) (version : VKey) : Except Unit (FSState × List Char) :=
  if dbPathOf docDir version ∈ fs.files then Except.ok (fs, dbPathOf docDir version)
  else if assetOk version then
    Except.ok (FSState.mk (dbPathOf docDir version :: (provisionDirs docDir fs).files)
        (provisionDirs docDir fs).dirs ((provisionDirs docDir fs).copyCount + 1),
      dbPathOf docDir version)
  else Except.error ()

end BlogsPath

namespace BlogsPath

/-! ## Helper lemmas: decimal digits and the number/string codec -/

theorem digitsRevFuel_all_lt10 (fuel : Nat) :
    ∀ (n : Nat), ∀ d ∈ digitsRevFuel fuel n, d < 10 := by
  induction fuel with
  | zero => intro n d hd; simp [digitsRevFuel] at hd
  | succ f ih =>
    intro n d hd
    unfold digitsRevFuel at hd
    by_cases hn : n = 0
    · simp [hn] at hd
    · rw [if_neg hn] at hd
      rcases List.mem_cons.mp hd with h | h
      · subst h; exact Nat.mod_lt _ (by omega)
      · exact ih _ d h

theorem digitsRevFuel_foldr (fuel : Nat) :
    ∀ n, n ≤ fuel → (digitsRevFuel fuel n).foldr (fun d a => a * 10 + d) 0 = n := by
  induction fuel with
  | zero =>
    intro n hn
    have hn0 : n = 0 := by omega
    subst hn0; simp [digitsRevFuel]
  | succ f ih =>
    intro n hn
    unfold digitsRevFuel
    by_cases hn0 : n = 0
    · simp [hn0]
    · rw [if_neg hn0]
      have h1 : n / 10 < n := Nat.div_lt_self (by omega) (by omega)
      have hdiv : n / 10 ≤ f := by omega
      simp only [List.foldr_cons]
      rw [ih _ hdiv]
      have := Nat.div_add_mod n 10
      omega

theorem natDigits_all_lt10 (n : Nat) : ∀ d ∈ natDigits n, d < 10 := by
  intro d hd
  unfold natDigits at hd
  by_cases hn : n = 0
  · simp [hn] at hd; omega
  · rw [if_neg hn] at hd
    exact digitsRevFuel_all_lt10 n n d (List.mem_reverse.mp hd)

theorem natDigits_ne_nil (n : Nat) : natDigits n ≠ [] := by
  unfold natDigits
  by_cases hn : n = 0
  · simp [hn]
  · rw [if_neg hn]
    simp only [ne_eq, List.reverse_eq_nil_iff]
    cases n with
    | zero => exact absurd rfl hn
    | succ m =>
      unfold digitsRevFuel
      simp

theorem natDigits_foldl (n : Nat) :
    (natDigits n).foldl (fun a d => a * 10 + d) 0 = n := by
  unfold natDigits
  by_cases hn : n = 0
  · simp [hn]
  · rw [if_neg hn, List.foldl_reverse]
    exact digitsRevFuel_foldr n n (Nat.le_refl n)

theorem digitChar_isDigit (d : Nat) (h : d < 10) : isDigitCh (digitChar d) = true := by
  interval_cases d <;> decide

theorem digitVal_digitChar (d : Nat) (h : d < 10) : digitVal (digitChar d) = d := by
  interval_cases d <;> decide

theorem natChars_all_digit (n : Nat) : ∀ c ∈ natChars n, isDigitCh c = true := by
  intro c hc
  rcases List.mem_map.mp hc with ⟨d, hd, rfl⟩
  exact digitChar_isDigit d (natDigits_all_lt10 n d hd)

theorem natChars_ne_nil (n : Nat) : natChars n ≠ [] := by
  unfold natChars
  simp [natDigits_ne_nil n]

theorem natChars_foldl (n : Nat) :
    (natChars n).foldl (fun a c => a * 10 + digitVal c) 0 = n := by
  unfold natChars
  rw [List.foldl_map]
  refine (List.foldl_ext _ _ 0 ?_).trans (natDigits_foldl n)
  intro a d hd
  show a * 10 + digitVal (digitChar d) = a * 10 + d
  rw [digitVal_digitChar d (natDigits_all_lt10 n d hd)]

theorem takeWhile_append_all {α : Type} (p : α → Bool) (l r : List α)
    (h : ∀ a ∈ l, p a = true) :
    (l ++ r).takeWhile p = l ++ r.takeWhile p := by
  induction l with
  | nil => simp
  | cons a t ih =>
    have ha : p a = true := h a (List.mem_cons_self a t)
    rw [List.cons_append, List.takeWhile_cons, if_pos ha,
      ih (fun x hx => h x (List.mem_cons_of_mem a hx)), List.cons_append]

theorem takeWhile_all {α : Type} (p : α → Bool) (l : List α)
    (h : ∀ a ∈ l, p a = true) : l.takeWhile p = l := by
  have := takeWhile_append_all p l [] h
  simpa using this

theorem stripTZ_eq (l : List Nat) (h : l.getLast? ≠ some 0) : stripTZ l = l := by
  unfold stripTZ
  cases hrev : l.reverse with
  | nil =>
    have hl : l = [] := List.reverse_eq_nil_iff.mp hrev
    simp [hl]
  | cons a t =>
    have hla : l.getLast? = some a := by
      rw [List.getLast?_eq_head?_reverse, hrev]; rfl
    have ha : ¬(a = 0) := fun h0 => h (by rw [hla, h0])
    rw [List.dropWhile_cons, if_neg (by simpa using ha), ← hrev, List.reverse_reverse]

theorem parseFloat_natChars (n : Nat) : parseFloat (natChars n) = some ⟨n, []⟩ := by
  unfold parseFloat
  rw [takeWhile_all _ _ (natChars_all_digit n), List.drop_length]
  rw [if_neg (by simp [List.isEmpty_iff, natChars_ne_nil n])]
  simp [natChars_foldl n]

theorem parseFloat_natChars_frac (n : Nat) (fs : List Nat) (h10 : ∀ d ∈ fs, d < 10) :
    parseFloat (natChars n ++ '.' :: fs.map digitChar) = some ⟨n, stripTZ fs⟩ := by
  unfold parseFloat
  have hdot : isDigitCh ('.') = false := by decide
  have hTW : (natChars n ++ '.' :: fs.map digitChar).takeWhile isDigitCh = natChars n := by
    rw [takeWhile_append_all _ _ _ (natChars_all_digit n), List.takeWhile_cons, if_neg (by simp [hdot])]
    simp
  rw [hTW, List.drop_left]
  rw [if_neg (by simp [List.isEmpty_iff, natChars_ne_nil n])]
  have hfs : (fs.map digitChar).takeWhile isDigitCh = fs.map digitChar :=
    takeWhile_all _ _ (fun c hc => by
      rcases List.mem_map.mp hc with ⟨d, hd, rfl⟩
      exact digitChar_isDigit d (h10 d hd))
  have hmap : (fs.map digitChar).map digitVal = fs := by
    rw [List.map_map]
    rw [List.map_congr_left (fun d hd => by
      simp only [Function.comp_apply]
      exact digitVal_digitChar d (h10 d hd))]
    exact List.map_id fs
  simp [hfs, hmap, natChars_foldl n]

theorem parseFloat_decToString (y : DecNum) (h : DecWF y) :
    parseFloat (decToString y) = some y := by
  obtain ⟨ip, frac⟩ := y
  obtain ⟨hlt, hlast⟩ := h
  cases frac with
  | nil => simpa [decToString] using parseFloat_natChars ip
  | cons f0 ft =>
    have h1 := parseFloat_natChars_frac ip (f0 :: ft) hlt
    have h2 : stripTZ (f0 :: ft) = f0 :: ft := stripTZ_eq _ hlast
    simpa [decToString, h2] using h1

theorem decToString_ne_nil (y : DecNum) : decToString y ≠ [] := by
  unfold decToString
  intro hc
  exact natChars_ne_nil y.ip (List.append_eq_nil.mp hc).1

/-- C10: for every post identifier and every finite nonnegative offset in
the shape `Number.toString` renders (digits with no trailing fractional
zero), reading the progress right after saving it returns the same
offset: the save/load pair round-trips through the decimal-string
encoding (`y.toString` then `parseFloat`). -/
theorem progress_roundtrip (store : Storage) (postId : Nat) (y : DecNum) (h : DecWF y) :
    getReadingProgress (saveReadingProgress store postId y) postId = Except.ok (some y) := by
  have hrun : getReadingProgress (saveReadingProgress store postId y) postId
      = Except.ok (parseFloat (decToString y)) := by
    unfold getReadingProgress saveReadingProgress
    rw [if_pos rfl]
    exact if_neg (decToString_ne_nil y)
  rw [hrun, parseFloat_decToString y h]

theorem progress_roundtrip_witness :
    DecWF ⟨3, [1, 5]⟩ ∧
      getReadingProgress (saveReadingProgress (fun _ => Except.ok none) 7 ⟨3, [1, 5]⟩) 7 =
        Except.ok (some ⟨3, [1, 5]⟩) :=
  ⟨⟨by decide, by decide⟩,
    progress_roundtrip (fun _ => Except.ok none) 7 ⟨3, [1, 5]⟩ ⟨by decide, by decide⟩⟩

end BlogsPath

namespace BlogsPath

/-- C8 counterexample: with a stored progress value that cannot be parsed
(the string `abc`), `getReadingProgress` returns the `parseFloat` result
`NaN` (modelled as `none`), not `0`, so the claim that an unparseable
stored value yields `0` fails on the code. -/
theorem loadProgress_unparsed_cex :
    getReadingProgress
        (fun k => if k = progressKeyOf 1 then Except.ok (some (("abc").toList))
          else Except.ok none) 1 = Except.ok none ∧
      (Except.ok (none : Option DecNum) : Except Unit (Option DecNum))
        ≠ Except.ok (some ⟨0, []⟩) := by
  constructor
  · rfl
  · intro hc
    injection hc with hc2
    exact Option.noConfusion hc2

/-- C8 amended: loading the highlights map, the read-post list and the
per-post reading progress never throws to the caller (every storage
rejection or JSON-parse failure is caught), a missing backing entry is
treated as empty state, and `getReadingProgress` returns `0` for a post
whose progress was never saved; but for a stored value that `parseFloat`
cannot parse it returns `NaN` (modelled `none`), not `0`. -/
theorem overlay_load_fails_open (store : Storage)
    (parseHl : List Char → Except Unit HlMap)
    (parseIds : List Char → Except Unit (List Nat)) (postId : Nat) (val : List Char) :
    (∃ m, loadStoredData store parseHl = Except.ok m) ∧
      (store HIGHLIGHT_STORAGE_KEY = Except.ok none →
        loadStoredData store parseHl = Except.ok []) ∧
      (∃ ids, getReadPostIds store parseIds = Except.ok ids) ∧
      (store READ_POSTS_KEY = Except.ok none →
        getReadPostIds store parseIds = Except.ok []) ∧
      (∃ p, getReadingProgress store postId = Except.ok p) ∧
      (store (progressKeyOf postId) = Except.ok none →
        getReadingProgress store postId = Except.ok (some ⟨0, []⟩)) ∧
      (store (progressKeyOf postId) = Except.ok (some val) → val ≠ [] →
        parseFloat val = none → getReadingProgress store postId = Except.ok none) := by
  refine ⟨?_, ?_, ?_, ?_, ?_, ?_, ?_⟩
  · unfold loadStoredData
    split
    · exact ⟨[], rfl⟩
    · exact ⟨[], rfl⟩
    · split
      · exact ⟨[], rfl⟩
      · split
        · exact ⟨[], rfl⟩
        · exact ⟨_, rfl⟩
  · intro hx
    unfold loadStoredData
    rw [hx]
  · unfold getReadPostIds
    split
    · exact ⟨[], rfl⟩
    · exact ⟨[], rfl⟩
    · split
      · exact ⟨[], rfl⟩
      · split
        · exact ⟨[], rfl⟩
        · exact ⟨_, rfl⟩
  · intro hx
    unfold getReadPostIds
    rw [hx]
  · unfold getReadingProgress
    split
    · exact ⟨some ⟨0, []⟩, rfl⟩
    · exact ⟨some ⟨0, []⟩, rfl⟩
    · split
      · exact ⟨some ⟨0, []⟩, rfl⟩
      · exact ⟨_, rfl⟩
  · intro hx
    unfold getReadingProgress
    rw [hx]
  · intro hx hval hnan
    unfold getReadingProgress
    rw [hx]
    show (if val = [] then Except.ok (some ⟨0, []⟩) else Except.ok (parseFloat val))
      = Except.ok none
    rw [if_neg hval, hnan]

theorem overlay_load_fails_open_witness :
    loadStoredData
        (fun k => if k = progressKeyOf 1 then Except.ok (some (("abc").toList))
          else Except.ok none)
        (fun _ => Except.error ()) = Except.ok [] ∧
      getReadingProgress
        (fun k => if k = progressKeyOf 1 then Except.ok (some (("abc").toList))
          else Except.ok none) 1 = Except.ok none :=
  ⟨(overlay_load_fails_open
      (fun k => if k = progressKeyOf 1 then Except.ok (some (("abc").toList))
        else Except.ok none)
      (fun _ => Except.error ()) (fun _ => Except.ok []) 1 (("abc").toList)).2.1 rfl,
    (overlay_load_fails_open
      (fun k => if k = progressKeyOf 1 then Except.ok (some (("abc").toList))
        else Except.ok none)
      (fun _ => Except.error ()) (fun _ => Except.ok []) 1
      (("abc").toList)).2.2.2.2.2.2 rfl (by decide) rfl⟩

/-! ## Helper lemmas: the coordinator invariant -/

/-- The single-handle invariant: the `db` variable points at the unique
open handle, and no handle is open when `db` is null. -/
def coordInv (s : Coord) : Prop :=
  (s.db = none → s.handles = []) ∧ (∀ v, s.db = some v → s.handles = [v])

theorem coordInv_initDatabase (ok : VKey → Bool) (s : Coord) (h : coordInv s) :
    coordInv (initDatabase ok s).1 := by
  obtain ⟨sv, sdb, sh⟩ := s
  obtain ⟨h1, h2⟩ := h
  cases sdb with
  | some w => exact ⟨h1, h2⟩
  | none =>
    have he : sh = [] := h1 rfl
    subst he
    by_cases hok : ok sv
    · have hrun : initDatabase ok (Coord.mk sv none [])
          = (Coord.mk sv (some sv) [sv], true, 1) := by
        unfold initDatabase
        simp [hok]
      rw [hrun]
      constructor
      · intro hc
        exact Option.noConfusion (show some sv = (none : Option VKey) from hc)
      · intro v hv
        have hv2 : some sv = some v := hv
        injection hv2 with h3
        subst h3
        rfl
    · have hrun : initDatabase ok (Coord.mk sv none [])
          = (Coord.mk sv none [], false, 0) := by
        unfold initDatabase
        simp [hok]
      rw [hrun]
      exact ⟨fun _ => rfl, fun v hv =>
        Option.noConfusion (show (none : Option VKey) = some v from hv)⟩

theorem coordInv_setActive (ok : VKey → Bool) (s : Coord) (v : VKey) (h : coordInv s) :
    coordInv (setActiveBibleVersion ok s v).1 := by
  obtain ⟨sv, sdb, sh⟩ := s
  by_cases hv : v = sv
  · have hrun : setActiveBibleVersion ok (Coord.mk sv sdb sh) v
        = (Coord.mk sv sdb sh, true, 0, 0) := by
      unfold setActiveBibleVersion
      rw [if_pos (show v = (Coord.mk sv sdb sh).activeVersion from hv)]
    rw [hrun]
    exact h
  · obtain ⟨h1, h2⟩ := h
    cases sdb with
    | some w =>
      have hrun : setActiveBibleVersion ok (Coord.mk sv (some w) sh) v
          = ((initDatabase ok (Coord.mk v none (sh.erase w))).1,
             (initDatabase ok (Coord.mk v none (sh.erase w))).2.1, 1,
             (initDatabase ok (Coord.mk v none (sh.erase w))).2.2) := by
        unfold setActiveBibleVersion
        rw [if_neg (show ¬(v = (Coord.mk sv (some w) sh).activeVersion) from hv)]
      rw [hrun]
      have hw : sh = [w] := h2 w rfl
      have herase : sh.erase w = [] := by
        subst hw
        simp
      exact coordInv_initDatabase ok (Coord.mk v none (sh.erase w))
        ⟨fun _ => herase, fun u hu =>
          Option.noConfusion (show (none : Option VKey) = some u from hu)⟩
    | none =>
      have hrun : setActiveBibleVersion ok (Coord.mk sv none sh) v
          = ((initDatabase ok (Coord.mk v none sh)).1,
             (initDatabase ok (Coord.mk v none sh)).2.1, 0,
             (initDatabase ok (Coord.mk v none sh)).2.2) := by
        unfold setActiveBibleVersion
        rw [if_neg (show ¬(v = (Coord.mk sv none sh).activeVersion) from hv)]
      rw [hrun]
      have he : sh = [] := h1 rfl
      exact coordInv_initDatabase ok (Coord.mk v none sh)
        ⟨fun _ => he, fun u hu =>
          Option.noConfusion (show (none : Option VKey) = some u from hu)⟩

theorem reachable_coordInv (s : Coord) (h : Reachable s) : coordInv s := by
  induction h with
  | init =>
    exact ⟨fun _ => rfl, fun v hv =>
      Option.noConfusion (show (none : Option VKey) = some v from hv)⟩
  | initDB ok hr ih => exact coordInv_initDatabase ok _ ih
  | switch ok v hr ih => exact coordInv_setActive ok _ v ih

/-- C2: at every state the coordinator can reach, at most one database
handle is open, and the handle every query operation uses (the `db`
variable consumed by `getBooks` and `getVerses` through `initDatabase`)
is that unique open handle, so two open handles for two different
translations never coexist. -/
theorem coordinator_single_handle (s : Coord) (h : Reachable s) :
    s.handles.length ≤ 1 ∧ (∀ v, s.db = some v → s.handles = [v]) := by
  obtain ⟨h1, h2⟩ := reachable_coordInv s h
  refine ⟨?_, h2⟩
  cases hdb : s.db with
  | none =>
    rw [h1 hdb]
    simp
  | some v =>
    rw [h2 v hdb]
    simp

theorem coordinator_single_handle_witness :
    Reachable (initDatabase (fun _ => true) coordInit).1 ∧
      ((initDatabase (fun _ => true) coordInit).1.handles.length ≤ 1 ∧
        (∀ v, (initDatabase (fun _ => true) coordInit).1.db = some v →
          (initDatabase (fun _ => true) coordInit).1.handles = [v])) :=
  ⟨Reachable.initDB (fun _ => true) Reachable.init,
    coordinator_single_handle _ (Reachable.initDB (fun _ => true) Reachable.init)⟩

/-- C9: switching to the key that is already active is a no-op: the
coordinator state is returned unchanged and the handle is never closed
or reopened (zero close events and zero open events). -/
theorem switchTo_same_key_noop (ok : VKey → Bool) (s : Coord) (v : VKey)
    (h : v = s.activeVersion) :
    setActiveBibleVersion ok s v = (s, true, 0, 0) := by
  unfold setActiveBibleVersion
  rw [if_pos h]

theorem switchTo_same_key_noop_witness :
    (VKey.cuv = (Coord.mk VKey.cuv (some VKey.cuv) [VKey.cuv]).activeVersion) ∧
      setActiveBibleVersion (fun _ => false)
          (Coord.mk VKey.cuv (some VKey.cuv) [VKey.cuv]) VKey.cuv
        = (Coord.mk VKey.cuv (some VKey.cuv) [VKey.cuv], true, 0, 0) :=
  ⟨rfl, switchTo_same_key_noop (fun _ => false)
    (Coord.mk VKey.cuv (some VKey.cuv) [VKey.cuv]) VKey.cuv rfl⟩

/-- C1 counterexample: from the idle state active on `cuv` with an open
handle, a switch to `asv` whose provisioning fails reports failure, yet
the active-translation key observable afterwards is `asv`, not the
previously active `cuv` - the claim that after a failed switch the
active key equals the key active before the call fails on the code. -/
theorem switch_failure_active_key_cex :
    (setActiveBibleVersion (fun w => decide (w ≠ VKey.asv))
        (Coord.mk VKey.cuv (some VKey.cuv) [VKey.cuv]) VKey.asv).2.1 = false ∧
      getActiveBibleVersion (setActiveBibleVersion (fun w => decide (w ≠ VKey.asv))
          (Coord.mk VKey.cuv (some VKey.cuv) [VKey.cuv]) VKey.asv).1
        ≠ getActiveBibleVersion (Coord.mk VKey.cuv (some VKey.cuv) [VKey.cuv]) := by
  constructor
  · rfl
  · intro hc
    exact VKey.noConfusion hc

/-- C1 amended: when provisioning or opening the new translation fails,
the failed switch leaves the coordinator idle (not stuck in any
switching state) with its active key set to the requested new key and no
open handle; the coordinator stays usable - a later switch back to the
previous key succeeds whenever that key provisions - and the calling
screen `handleTranslationChange` catches the failure and rolls its own
displayed translation back, so the caller-visible translation equals the
prior one even though `getActiveBibleVersion` reports the new key. -/
theorem switch_failure_state (ok : VKey → Bool) (s : Coord) (v : VKey) (u : UIState)
    (hv : v ≠ s.activeVersion) (hok : ok v = false)
    (hu : u.coord = s) (huv : v ≠ u.translation) :
    (setActiveBibleVersion ok s v).2.1 = false ∧
      (setActiveBibleVersion ok s v).1.activeVersion = v ∧
      (setActiveBibleVersion ok s v).1.db = none ∧
      (∀ ok2 : VKey → Bool, ok2 s.activeVersion = true →
        (setActiveBibleVersion ok2 (setActiveBibleVersion ok s v).1 s.activeVersion).2.1 = true ∧
          (setActiveBibleVersion ok2 (setActiveBibleVersion ok s v).1
            s.activeVersion).1.activeVersion = s.activeVersion) ∧
      (handleTranslationChange ok u v).translation = u.translation := by
  obtain ⟨sv, sdb, sh⟩ := s
  have hcore : ∃ hd c, setActiveBibleVersion ok (Coord.mk sv sdb sh) v
      = (Coord.mk v none hd, false, c, 0) := by
    cases sdb with
    | some w =>
      refine ⟨sh.erase w, 1, ?_⟩
      unfold setActiveBibleVersion
      rw [if_neg (show ¬(v = (Coord.mk sv (some w) sh).activeVersion) from hv)]
      unfold initDatabase
      simp [hok]
    | none =>
      refine ⟨sh, 0, ?_⟩
      unfold setActiveBibleVersion
      rw [if_neg (show ¬(v = (Coord.mk sv none sh).activeVersion) from hv)]
      unfold initDatabase
      simp [hok]
  obtain ⟨hd, c, hrun⟩ := hcore
  refine ⟨by rw [hrun], by rw [hrun], by rw [hrun], ?_, ?_⟩
  · intro ok2 hok2
    rw [hrun]
    have hne : ¬((Coord.mk sv sdb sh).activeVersion = (Coord.mk v none hd).activeVersion) :=
      fun hc => hv hc.symm
    have hrun2 : setActiveBibleVersion ok2 (Coord.mk v none hd)
        (Coord.mk sv sdb sh).activeVersion
        = (Coord.mk ((Coord.mk sv sdb sh).activeVersion)
            (some ((Coord.mk sv sdb sh).activeVersion))
            ((Coord.mk sv sdb sh).activeVersion :: hd), true, 0, 1) := by
      unfold setActiveBibleVersion
      rw [if_neg hne]
      unfold initDatabase
      simp [hok2]
    rw [hrun2]
    exact ⟨rfl, rfl⟩
  · obtain ⟨ut, uc⟩ := u
    have hu2 : uc = Coord.mk sv sdb sh := hu
    subst hu2
    unfold handleTranslationChange
    rw [if_neg (show ¬(v = (UIState.mk ut (Coord.mk sv sdb sh)).translation) from huv)]
    simp only [hrun]
    simp

theorem switch_failure_state_witness :
    (VKey.asv ≠ (Coord.mk VKey.cuv (some VKey.cuv) [VKey.cuv]).activeVersion) ∧
      ((fun w => decide (w ≠ VKey.asv)) VKey.asv = false) ∧
      (handleTranslationChange (fun w => decide (w ≠ VKey.asv))
          (UIState.mk VKey.cuv (Coord.mk VKey.cuv (some VKey.cuv) [VKey.cuv]))
          VKey.asv).translation = VKey.cuv :=
  ⟨by decide, by decide,
    (switch_failure_state (fun w => decide (w ≠ VKey.asv))
      (Coord.mk VKey.cuv (some VKey.cuv) [VKey.cuv]) VKey.asv
      (UIState.mk VKey.cuv (Coord.mk VKey.cuv (some VKey.cuv) [VKey.cuv]))
      (by decide) (by decide) rfl (by decide)).2.2.2.2⟩

end BlogsPath

namespace BlogsPath

/-! ## C3: reader position across a translation switch -/

/-- C3 counterexample: switching while positioned at a book serial that
does not resolve in the new translation (serial 99 against a one-book
list) with chapter 5 lands on the first book at chapter
`min 5 ChapterNumber` = 5, not at chapter 1 - the fall-back-to-chapter-1
part of the claim fails on the code. -/
theorem translation_switch_fallback_cex :
    loadBooksSelect [BibleBook.mk 1 [] [] 0 50] (some 99) (some 5)
        = some (BibleBook.mk 1 [] [] 0 50, 5) ∧
      loadBooksSelect [BibleBook.mk 1 [] [] 0 50] (some 99) (some 5)
        ≠ some (BibleBook.mk 1 [] [] 0 50, 1) := by
  constructor
  · rfl
  · intro hc
    have h2 := Option.some.inj hc
    have h3 := congrArg Prod.snd h2
    exact absurd h3 (by decide)

/-- C3 amended: capturing `(bookSerial, chapter)` before the switch,
`loadBooks` re-selects the book with the same serial in the new
translation when one resolves, with chapter clamped to
`min (oldChapter, newBook.chapterCount)`; when the serial does not
resolve, it falls back to the first book with chapter clamped to
`min (oldChapter, firstBook.chapterCount)` (not to chapter 1). -/
theorem translation_switch_position (b0 : BibleBook) (rest : List BibleBook)
    (sn ch : Nat) (m : BibleBook) (hsn : sn ≠ 0) (hch : ch ≠ 0) :
    ((b0 :: rest).find? (fun b => b.SN = sn) = some m →
      loadBooksSelect (b0 :: rest) (some sn) (some ch)
        = some (m, min ch m.ChapterNumber)) ∧
      ((b0 :: rest).find? (fun b => b.SN = sn) = none →
        loadBooksSelect (b0 :: rest) (some sn) (some ch)
          = some (b0, min ch b0.ChapterNumber)) := by
  constructor
  · intro hf
    simp [loadBooksSelect, hf, hsn, hch]
  · intro hf
    simp [loadBooksSelect, hf, hsn, hch]

theorem translation_switch_position_witness :
    ([BibleBook.mk 19 [] [] 0 3].find? (fun b => b.SN = 19)
        = some (BibleBook.mk 19 [] [] 0 3)) ∧
      loadBooksSelect [BibleBook.mk 19 [] [] 0 3] (some 19) (some 5)
        = some (BibleBook.mk 19 [] [] 0 3, 3) :=
  ⟨by decide,
    (translation_switch_position (BibleBook.mk 19 [] [] 0 3) [] 19 5
      (BibleBook.mk 19 [] [] 0 3) (by decide) (by decide)).1 (by decide)⟩

/-! ## C4: reading history -/

theorem saveHistory_head (e : HistoryEntry) (h : List HistoryEntry) :
    (saveHistory e h).head? = some e := by
  unfold saveHistory
  split
  · rfl
  · rfl

theorem saveHistory_length_le (e : HistoryEntry) (h : List HistoryEntry) :
    (saveHistory e h).length ≤ 20 := by
  unfold saveHistory
  split
  next hgt => rw [List.length_take]; omega
  next hgt => omega

theorem saveHistory_keys_nodup (e : HistoryEntry) (h : List HistoryEntry)
    (hn : historyKeysNodup h) : historyKeysNodup (saveHistory e h) := by
  unfold saveHistory
  have hcons : ((e :: h.filter
      (fun x => ¬(x.bookSN = e.bookSN ∧ x.chapter = e.chapter))) :
        List HistoryEntry).Pairwise
      (fun a b => ¬(a.bookSN = b.bookSN ∧ a.chapter = b.chapter)) := by
    refine List.Pairwise.cons ?_ (List.Pairwise.sublist (List.filter_sublist h) hn)
    intro b hb hc
    have hmem := (List.mem_filter.mp hb).2
    simp only [decide_eq_true_eq] at hmem
    exact hmem ⟨hc.1.symm, hc.2.symm⟩
  split
  · exact List.Pairwise.sublist (List.take_sublist _ _) hcons
  · exact hcons

theorem filter_length_of_mem (e : HistoryEntry) (h : List HistoryEntry)
    (hn : historyKeysNodup h)
    (hex : ∃ x ∈ h, x.bookSN = e.bookSN ∧ x.chapter = e.chapter) :
    (h.filter (fun x => ¬(x.bookSN = e.bookSN ∧ x.chapter = e.chapter))).length + 1
      = h.length := by
  induction h with
  | nil =>
    rcases hex with ⟨x, hx, _⟩
    cases hx
  | cons a t ih =>
    have hpw := List.pairwise_cons.mp hn
    by_cases hae : a.bookSN = e.bookSN ∧ a.chapter = e.chapter
    · have ht_all : ∀ b ∈ t, ¬(b.bookSN = e.bookSN ∧ b.chapter = e.chapter) := by
        intro b hb hc
        exact hpw.1 b hb ⟨hae.1.trans hc.1.symm, hae.2.trans hc.2.symm⟩
      rw [List.filter_cons, if_neg (by simp [hae.1, hae.2])]
      rw [List.filter_eq_self.mpr (fun b hb => by
        simp only [decide_eq_true_eq]
        exact ht_all b hb)]
      simp
    · rw [List.filter_cons, if_pos (by
        simp only [decide_eq_true_eq]
        exact hae)]
      have hex2 : ∃ x ∈ t, x.bookSN = e.bookSN ∧ x.chapter = e.chapter := by
        rcases hex with ⟨x, hx, hxe⟩
        rcases List.mem_cons.mp hx with rfl | hxt
        · exact absurd hxe hae
        · exact ⟨x, hxt, hxe⟩
      have := ih hpw.2 hex2
      simp only [List.length_cons]
      omega

/-- C4: recording a visit removes any existing entry at the same
`(bookSN, chapter)`, prepends the new entry at the head and caps the
list at 20 entries; position keys stay unique, revisiting a logged
position does not grow the list, and recording 21 sequential distinct
visits from an empty log leaves exactly the 20 most recent entries, most
recent first, with the least-recently-visited entry evicted. -/
theorem saveHistory_spec (e : HistoryEntry) (h : List HistoryEntry) :
    (saveHistory e h).head? = some e ∧
      (saveHistory e h).length ≤ 20 ∧
      (historyKeysNodup h → historyKeysNodup (saveHistory e h)) ∧
      (historyKeysNodup h → h.length ≤ 20 →
        (∃ x ∈ h, x.bookSN = e.bookSN ∧ x.chapter = e.chapter) →
        (saveHistory e h).length = h.length) ∧
      ((List.range 21).foldl (fun acc i => saveHistory (visitN (i + 1)) acc) []
          = (List.range 20).map (fun j => visitN (21 - j)) ∧
        visitN 1 ∉ (List.range 21).foldl (fun acc i => saveHistory (visitN (i + 1)) acc) []) := by
  refine ⟨saveHistory_head e h, saveHistory_length_le e h, saveHistory_keys_nodup e h,
    ?_, by decide, by decide⟩
  intro hn hlen hex
  have hfl := filter_length_of_mem e h hn hex
  unfold saveHistory
  split
  next hgt =>
    exfalso
    simp only [List.length_cons] at hgt
    omega
  next hgt =>
    simp only [List.length_cons]
    omega

theorem saveHistory_spec_witness :
    historyKeysNodup [HistoryEntry.mk 1 1 [] 0] ∧
      ([HistoryEntry.mk 1 1 [] 0] : List HistoryEntry).length ≤ 20 ∧
      (∃ x ∈ [HistoryEntry.mk 1 1 [] 0],
        x.bookSN = (HistoryEntry.mk 1 1 [] 99).bookSN ∧
          x.chapter = (HistoryEntry.mk 1 1 [] 99).chapter) ∧
      (saveHistory (HistoryEntry.mk 1 1 [] 99) [HistoryEntry.mk 1 1 [] 0]).length
        = ([HistoryEntry.mk 1 1 [] 0] : List HistoryEntry).length :=
  ⟨List.pairwise_singleton _ _, by decide,
    ⟨HistoryEntry.mk 1 1 [] 0, by simp, by decide⟩,
    (saveHistory_spec (HistoryEntry.mk 1 1 [] 99) [HistoryEntry.mk 1 1 [] 0]).2.2.2.1
      (List.pairwise_singleton _ _) (by decide)
      ⟨HistoryEntry.mk 1 1 [] 0, by simp, by decide⟩⟩

end BlogsPath

namespace BlogsPath

/-! ## C5: chapter verses query -/

/-- C5: whenever the verse table gives distinct verse numbers to the rows
of the queried `(bookSerial, chapter)` group (the schema key of every
shipped corpus), `getVerses` returns a sequence strictly ordered by
`VerseSN` ascending whose every row matches the queried book serial and
chapter, and a valid combination with zero indexed rows yields the empty
sequence rather than an error. -/
theorem getVerses_spec (table : List VerseRow) (bookId chapter : Nat)
    (hdist : (table.filter (fun v => v.VolumeSN = bookId ∧ v.ChapterSN = chapter)).Pairwise
      (fun a b => a.VerseSN ≠ b.VerseSN)) :
    (getVerses table bookId chapter).Pairwise (fun a b => a.VerseSN < b.VerseSN) ∧
      (∀ v ∈ getVerses table bookId chapter, v.VolumeSN = bookId ∧ v.ChapterSN = chapter) ∧
      (table.filter (fun v => v.VolumeSN = bookId ∧ v.ChapterSN = chapter) = [] →
        getVerses table bookId chapter = []) := by
  haveI htot : IsTotal VerseRow (fun a b => a.VerseSN ≤ b.VerseSN) :=
    ⟨fun a b => Nat.le_total a.VerseSN b.VerseSN⟩
  haveI htr : IsTrans VerseRow (fun a b => a.VerseSN ≤ b.VerseSN) :=
    ⟨fun a b c hab hbc => Nat.le_trans hab hbc⟩
  have hperm : (getVerses table bookId chapter).Perm
      (table.filter (fun v => v.VolumeSN = bookId ∧ v.ChapterSN = chapter)) :=
    List.perm_insertionSort _ _
  have hsorted : (getVerses table bookId chapter).Pairwise
      (fun a b => a.VerseSN ≤ b.VerseSN) :=
    List.sorted_insertionSort _ _
  have hne : (getVerses table bookId chapter).Pairwise
      (fun a b => a.VerseSN ≠ b.VerseSN) :=
    (List.Perm.pairwise_iff (fun hxy => Ne.symm hxy) hperm).mpr hdist
  refine ⟨?_, ?_, ?_⟩
  · exact (hsorted.and hne).imp (fun hab => Nat.lt_of_le_of_ne hab.1 hab.2)
  · intro v hv
    have hvf := hperm.mem_iff.mp hv
    have := (List.mem_filter.mp hvf).2
    simpa using this
  · intro hnil
    unfold getVerses
    rw [hnil]
    rfl

theorem getVerses_spec_witness :
    (([VerseRow.mk 1 1 1 1 []] : List VerseRow).filter
        (fun v => v.VolumeSN = 1 ∧ v.ChapterSN = 1)).Pairwise
        (fun a b => a.VerseSN ≠ b.VerseSN) ∧
      (∀ v ∈ getVerses [VerseRow.mk 1 1 1 1 []] 1 1,
        v.VolumeSN = 1 ∧ v.ChapterSN = 1) :=
  ⟨by decide, (getVerses_spec [VerseRow.mk 1 1 1 1 []] 1 1 (by decide)).2.1⟩

/-! ## C6: provisioner idempotence -/

theorem provisionDirs_copyCount (docDir : List Char) (fs : FSState) :
    (provisionDirs docDir fs).copyCount = fs.copyCount := by
  unfold provisionDirs
  split
  · rfl
  · rfl

/-- C6: `ensureDatabaseReady` is idempotent with respect to the file
copy: when the database file is absent and the asset resolves, the first
call performs exactly one copy and an immediately repeated call takes
the fast path, returning the same path with no further copy; and
whenever the file already exists at the target path the call returns it
at once without copying. -/
theorem ensureReady_idempotent (docDir : List Char) (assetOk : VKey → Bool)
    (fs : FSState) (v : VKey) (hok : assetOk v = true)
    (habs : dbPathOf docDir v ∉ fs.files) :
    ∃ fs1, ensureDatabaseReady docDir assetOk fs v = Except.ok (fs1, dbPathOf docDir v) ∧
      ensureDatabaseReady docDir assetOk fs1 v = Except.ok (fs1, dbPathOf docDir v) ∧
      fs1.copyCount = fs.copyCount + 1 ∧
      (∀ fs2 : FSState, dbPathOf docDir v ∈ fs2.files →
        ensureDatabaseReady docDir assetOk fs2 v = Except.ok (fs2, dbPathOf docDir v)) := by
  have hfast : ∀ fs2 : FSState, dbPathOf docDir v ∈ fs2.files →
      ensureDatabaseReady docDir assetOk fs2 v = Except.ok (fs2, dbPathOf docDir v) := by
    intro fs2 h2
    unfold ensureDatabaseReady
    rw [if_pos h2]
  refine ⟨FSState.mk (dbPathOf docDir v :: (provisionDirs docDir fs).files)
    (provisionDirs docDir fs).dirs ((provisionDirs docDir fs).copyCount + 1), ?_, ?_, ?_, hfast⟩
  · unfold ensureDatabaseReady
    rw [if_neg habs, if_pos hok]
  · exact hfast _ (List.mem_cons_self _ _)
  · rw [provisionDirs_copyCount]

theorem ensureReady_idempotent_witness :
    ((fun _ : VKey => true) VKey.cuv = true) ∧
      (dbPathOf [] VKey.cuv ∉ (FSState.mk [] [] 0).files) ∧
      (∃ fs1, ensureDatabaseReady [] (fun _ => true) (FSState.mk [] [] 0) VKey.cuv
          = Except.ok (fs1, dbPathOf [] VKey.cuv) ∧
        ensureDatabaseReady [] (fun _ => true) fs1 VKey.cuv
          = Except.ok (fs1, dbPathOf [] VKey.cuv) ∧
        fs1.copyCount = (FSState.mk [] [] 0).copyCount + 1 ∧
        (∀ fs2 : FSState, dbPathOf [] VKey.cuv ∈ fs2.files →
          ensureDatabaseReady [] (fun _ => true) fs2 VKey.cuv
            = Except.ok (fs2, dbPathOf [] VKey.cuv))) :=
  ⟨rfl, by decide,
    ensureReady_idempotent [] (fun _ => true) (FSState.mk [] [] 0) VKey.cuv rfl (by decide)⟩

/-! ## C7: highlight toggling -/

theorem hlLookup_hlErase_self (m : HlMap) (k : Nat × Nat × Nat) :
    hlLookup (hlErase m k) k = none := by
  have hfind : (hlErase m k).find? (fun p => p.1 = k) = none := by
    rw [List.find?_eq_none]
    intro x hx
    have hmem := (List.mem_filter.mp hx).2
    simp only [decide_eq_true_eq] at hmem ⊢
    exact hmem
  unfold hlLookup
  rw [hfind]
  rfl

theorem find?_map_replace (m : HlMap) (k : Nat × Nat × Nat)
    (hs : (m.find? (fun p => p.1 = k)).isSome) :
    (m.map (fun p => if p.1 = k then (k, true) else p)).find? (fun p => p.1 = k)
      = some (k, true) := by
  induction m with
  | nil => simp at hs
  | cons p t ih =>
    by_cases hp : p.1 = k
    · simp only [List.map_cons]
      rw [if_pos hp]
      rw [List.find?_cons_of_pos _ (by simp)]
    · simp only [List.map_cons]
      rw [if_neg hp]
      rw [List.find?_cons_of_neg _ (by simp [hp])]
      apply ih
      rw [List.find?_cons_of_neg _ (by simp [hp])] at hs
      exact hs

theorem hlLookup_hlInsertTrue_self (m : HlMap) (k : Nat × Nat × Nat) :
    hlLookup (hlInsertTrue m k) k = some true := by
  unfold hlInsertTrue
  by_cases hs : (m.find? (fun p => p.1 = k)).isSome
  · rw [if_pos hs]
    unfold hlLookup
    rw [find?_map_replace m k hs]
    rfl
  · rw [if_neg hs]
    unfold hlLookup
    rw [List.find?_append]
    have hnone : m.find? (fun p => p.1 = k) = none :=
      Option.not_isSome_iff_eq_none.mp hs
    rw [hnone]
    simp

/-- C7: toggling the highlight of a verse key twice restores the flag
observed for that key - in particular a key absent before the two
toggles is absent after them - since the toggle sets the flag when the
key is absent (or falsy) and deletes the property when it is set. -/
theorem toggleHighlight_twice (m : HlMap) (k : Nat × Nat × Nat) :
    (hlLookup (toggleHighlight (toggleHighlight m k) k) k).getD false
        = (hlLookup m k).getD false ∧
      (hlLookup m k = none →
        hlLookup (toggleHighlight (toggleHighlight m k) k) k = none) := by
  by_cases ht : (hlLookup m k).getD false
  · have h1 : toggleHighlight m k = hlErase m k := by
      unfold toggleHighlight
      rw [if_pos ht]
    have h2 : hlLookup (hlErase m k) k = none := hlLookup_hlErase_self m k
    have h3 : toggleHighlight (hlErase m k) k = hlInsertTrue (hlErase m k) k := by
      unfold toggleHighlight
      rw [h2]
      rfl
    rw [h1, h3, hlLookup_hlInsertTrue_self]
    constructor
    · rw [ht]
      rfl
    · intro hn
      rw [hn] at ht
      simp at ht
  · have hb : (hlLookup m k).getD false = false := by
      revert ht
      cases (hlLookup m k).getD false
      · intro _
        rfl
      · intro hc
        exact absurd rfl hc
    have h1 : toggleHighlight m k = hlInsertTrue m k := by
      unfold toggleHighlight
      rw [hb]
      rfl
    have h2 : hlLookup (hlInsertTrue m k) k = some true := hlLookup_hlInsertTrue_self m k
    have h3 : toggleHighlight (hlInsertTrue m k) k = hlErase (hlInsertTrue m k) k := by
      unfold toggleHighlight
      rw [h2]
      rfl
    rw [h1, h3, hlLookup_hlErase_self]
    constructor
    · rw [hb]
      rfl
    · intro _
      rfl

theorem toggleHighlight_twice_witness :
    hlLookup [] (1, 1, 1) = none ∧
      hlLookup (toggleHighlight (toggleHighlight [] (1, 1, 1)) (1, 1, 1)) (1, 1, 1) = none :=
  ⟨rfl, (toggleHighlight_twice [] (1, 1, 1)).2 rfl⟩

end BlogsPath
